import Mathlib

/-!
# Verification of the SvgPathTurtle language core

A shallow embedding, in Lean 4, of the parts of the SvgPathTurtle
interpreter that the checkable claims of the specification are about:

* the constant-folding expression combinators (`create_prefix_op_expr`,
  `create_binary_op_expr`, `create_conditional_expr`);
* the Pratt-parser operator metadata (`OpInfo.postfix_binds_more_tightly`);
* the lexical name environment (`LexicalContextStack::define_name`);
* the two runtime frame stacks (`FrameStack`, `EngineStack`) and the
  infinite-recursion guard of `ExecutionEngine::exec_statements`;
* the compiled for-loop drivers of `ExecutionEngine::compile_for_loop`;
* the `unique` counter (`ExecutionEngine::compile_unique_val_expr`);
* the execution bracket (`exec_fn_body`, `exec_call_fn`,
  `exec_call_local_block`, `execute_main`).

Numeric values (`double` in the C++ source) are modelled as rationals.
This is exact for the operations the claims below depend on: comparisons,
negation, the logical operators, stack bookkeeping and loop iteration
counts are stated at inputs where IEEE-754 arithmetic is exact.  The two
operations that rationals cannot mirror bit-for-bit (`std::pow` and
division by zero) are given total stand-ins; no theorem below depends on
their values, only on the fact that the folded and the deferred code path
apply the *same* function, which is true in the source (both instantiate
`binary_op<op>`).
-/

namespace SvgPathTurtle

/-! ## Operator semantics (part_003 of the source, `prefix_op` / `binary_op`)

The source defines one specialisation of `prefix_op<op>` / `binary_op<op>`
per operator token; here the token becomes an inductive tag and the
specialisations become one function by cases. -/

inductive PrefixOp where
  | tkMinus
  | tkBang
  deriving DecidableEq, Repr

inductive BinOp where
  | tkPlus
  | tkMinus
  | tkStar
  | tkSlash
  | tkPow
  | tkEquality
  | tkInequality
  | tkLt
  | tkGt
  | tkLe
  | tkGe
  | tkOr
  | tkAnd
  deriving DecidableEq, Repr

/-- Source `prefix_op<tk_minus>` is `-rhs`; `prefix_op<tk_bang>` is `rhs ? 0 : 1`
(a C++ `double` is truthy exactly when it is non-zero). -/
def prefix_op : PrefixOp → ℚ → ℚ
  | .tkMinus, rhs => -rhs
  | .tkBang, rhs => if rhs ≠ 0 then 0 else 1

/-- Stand-in for `std::pow` on doubles: exact for integral exponents,
arbitrary elsewhere.  No theorem in this file depends on its values. -/
def qpow (lhs rhs : ℚ) : ℚ :=
  if rhs.den = 1 then lhs ^ rhs.num else 0

/-- The thirteen `binary_op<op>` specialisations of the source, by cases.
`lhs / 0` is `0` in ℚ where IEEE doubles give an infinity; no theorem
below evaluates a division by zero. -/
def binary_op : BinOp → ℚ → ℚ → ℚ
  | .tkPlus, lhs, rhs => lhs + rhs
  | .tkMinus, lhs, rhs => lhs - rhs
  | .tkStar, lhs, rhs => lhs * rhs
  | .tkSlash, lhs, rhs => lhs / rhs
  | .tkPow, lhs, rhs => qpow lhs rhs
  | .tkEquality, lhs, rhs => if lhs = rhs then 1 else 0
  | .tkInequality, lhs, rhs => if lhs ≠ rhs then 1 else 0
  | .tkLt, lhs, rhs => if lhs < rhs then 1 else 0
  | .tkGt, lhs, rhs => if lhs > rhs then 1 else 0
  | .tkLe, lhs, rhs => if lhs ≤ rhs then 1 else 0
  | .tkGe, lhs, rhs => if lhs ≥ rhs then 1 else 0
  | .tkOr, lhs, rhs => if lhs ≠ 0 then lhs else if rhs ≠ 0 then rhs else 0
  | .tkAnd, lhs, rhs => if lhs ≠ 0 ∧ rhs ≠ 0 then rhs else 0

/-! ## The AST value (ASTNode.h)

`Expr` in the source is `std::function<double()>`, a nullary closure; the
combinators never inspect it, only call it, so `Unit → ℚ` is a faithful
carrier for the purposes of the folding claims. -/

def Expr : Type := Unit → ℚ

inductive ASTNode where
  | invalid
  | expression (e : Expr)
  | constant (c : ℚ)

/-- Source `ASTNode::is_constexpr`: true exactly on `Constant` nodes. -/
def ASTNode.is_constexpr : ASTNode → Bool
  | .constant _ => true
  | _ => false

/-- Source `ASTNode::get_constant`.  The source asserts `is_constexpr()`; the
non-constant result `0` models the asserted-unreachable path. -/
def ASTNode.get_constant : ASTNode → ℚ
  | .constant c => c
  | _ => 0

/-- Source `ASTNode::get_expression`.  The source asserts `!is_constexpr()`; for
an `Invalid` node the stored `std::function` is empty, a path no caller
reaches, modelled by the constant-zero closure. -/
def ASTNode.get_expression : ASTNode → Expr
  | .expression e => e
  | _ => fun _ => 0

/-- Source `create_prefix_op_expr` (part_003): fold when the operand is constant,
otherwise close over the deferred expression of the operand. -/
def create_prefix_op_expr (op : PrefixOp) (rhs : ASTNode) : ASTNode :=
  if rhs.is_constexpr then
    ASTNode.constant (prefix_op op rhs.get_constant)
  else
    ASTNode.expression (fun u => prefix_op op (rhs.get_expression u))

/-- Source `create_binary_op_expr` (part_003): four-way dispatch on the constness
of the two operands; only the constant/constant case folds. -/
def create_binary_op_expr (op : BinOp) (lhs rhs : ASTNode) : ASTNode :=
  if lhs.is_constexpr then
    if rhs.is_constexpr then
      ASTNode.constant (binary_op op lhs.get_constant rhs.get_constant)
    else
      ASTNode.expression (fun u => binary_op op lhs.get_constant (rhs.get_expression u))
  else
    if rhs.is_constexpr then
      ASTNode.expression (fun u => binary_op op (lhs.get_expression u) rhs.get_constant)
    else
      ASTNode.expression (fun u => binary_op op (lhs.get_expression u) (rhs.get_expression u))

/-- Source `create_conditional_expr` (part_003): eight-way dispatch on the
constness of the three operands.  Every branch calls the template
`create_conditional`, which wraps a `condexp::f` overload in a *deferred*
closure — including the all-constant branch, which therefore does not
produce a `Constant` node. -/
def create_conditional_expr (lhs rhs third : ASTNode) : ASTNode :=
  if lhs.is_constexpr then
    if rhs.is_constexpr then
      if third.is_constexpr then
        ASTNode.expression
          (fun _ => if lhs.get_constant ≠ 0 then rhs.get_constant else third.get_constant)
      else
        ASTNode.expression
          (fun u => if lhs.get_constant ≠ 0 then rhs.get_constant else third.get_expression u)
    else
      if third.is_constexpr then
        ASTNode.expression
          (fun u => if lhs.get_constant ≠ 0 then rhs.get_expression u else third.get_constant)
      else
        ASTNode.expression
          (fun u => if lhs.get_constant ≠ 0 then rhs.get_expression u else third.get_expression u)
  else
    if rhs.is_constexpr then
      if third.is_constexpr then
        ASTNode.expression
          (fun u => if lhs.get_expression u ≠ 0 then rhs.get_constant else third.get_constant)
      else
        ASTNode.expression
          (fun u => if lhs.get_expression u ≠ 0 then rhs.get_constant else third.get_expression u)
    else
      if third.is_constexpr then
        ASTNode.expression
          (fun u => if lhs.get_expression u ≠ 0 then rhs.get_expression u else third.get_constant)
      else
        ASTNode.expression
          (fun u => if lhs.get_expression u ≠ 0 then rhs.get_expression u else third.get_expression u)

/-! Expression trees with constant leaves, and the two reference
evaluations the folding claim compares: eager evaluation of the tree, and
evaluation of the node the combinators actually build. -/

inductive ExprTree where
  | leaf (c : ℚ)
  | pre (op : PrefixOp) (t : ExprTree)
  | bin (op : BinOp) (l r : ExprTree)
  | ternary (c t e : ExprTree)

/-- Build the ASTNode the parser would build for a constant-leaf
expression, combinator by combinator. -/
def buildAST : ExprTree → ASTNode
  | .leaf c => ASTNode.constant c
  | .pre op t => create_prefix_op_expr op (buildAST t)
  | .bin op l r => create_binary_op_expr op (buildAST l) (buildAST r)
  | .ternary c t e => create_conditional_expr (buildAST c) (buildAST t) (buildAST e)

/-- Eager (entirely compile-time) evaluation of a constant-leaf tree. -/
def evalTree : ExprTree → ℚ
  | .leaf c => c
  | .pre op t => prefix_op op (evalTree t)
  | .bin op l r => binary_op op (evalTree l) (evalTree r)
  | .ternary c t e => if evalTree c ≠ 0 then evalTree t else evalTree e

/-- The runtime value of an ASTNode: a constant is itself, a deferred
expression is invoked.  (`Invalid` never reaches evaluation.) -/
def evalNode : ASTNode → ℚ
  | .invalid => 0
  | .expression e => e ()
  | .constant c => c

/-- Returns `true` when the tree contains no `?:` operator. -/
def ternary_free : ExprTree → Bool
  | .leaf _ => true
  | .pre _ t => ternary_free t
  | .bin _ l r => ternary_free l && ternary_free r
  | .ternary _ _ _ => false

/-! ## Operator info for the Pratt parser (part_001, `OpInfo`) -/

structure OpInfo where
  op : ℤ
  precedence : ℤ
  left_to_right : Bool

/-- Source `OpInfo::postfix_binds_more_tightly` transcribed from the source: two
early-out tests, then `true`. -/
def OpInfo.postfix_binds_more_tightly (info : OpInfo) (outer_precedence : ℤ) : Bool :=
  if info.precedence = 0 ∨ info.precedence > outer_precedence then false
  else if info.precedence = outer_precedence ∧ info.left_to_right then false
  else true

/-! ## The name environment (part_000, `LexicalContextStack`)

Only the innermost context matters to `define_name`; a context is an
association list from names to definitions (the payload type of the map is
irrelevant to the claim and is fixed to ℕ). -/

def Context : Type := List (String × ℕ)

/-- Membership of a name in a context, mirroring the already-present test
of `std::map::try_emplace`. -/
def context_has (ctx : Context) (name : String) : Bool :=
  ctx.any (fun p => p.1 = name)

/-- Source `LexicalContextStack::define_name` transcribed from the source: it
calls `try_emplace` on the innermost context and returns a definition
exactly when the emplacement inserted (`res.second`).  The `accept_dup`
parameter is *not consulted* anywhere in the body, although the
documentation block of the function itself says a duplicate must be returned when
`accept_dup` is true.  An empty context stack is an asserted-unreachable
path, modelled as failure. -/
def define_name (stack : List Context) (name : String) (accept_dup : Bool) :
    Option (List Context) :=
  match stack with
  | [] => none
  | ctx :: rest =>
      if context_has ctx name then none
      else some (((name, 0) :: ctx) :: rest)

/-- Modelled from the spec: the documented contract of
`define_name(name, accept_dup)` — the comment block in part_000 and the
`INTENTION` block of `NameInterface::define_name` in part_001: on a
duplicate, fail only when `accept_dup` is false, otherwise return the
existing definition (here: the unchanged stack). -/
def define_name_documented (stack : List Context) (name : String)
    (accept_dup : Bool) : Option (List Context) :=
  match stack with
  | [] => none
  | ctx :: rest =>
      if context_has ctx name then
        if accept_dup then some (ctx :: rest) else none
      else some (((name, 0) :: ctx) :: rest)

/-! ## The `unique` counter (Engine.cpp `compile_unique_val_expr`,
part_004 `m_next_unique_num`) -/

/-- Initial value of `m_next_unique_num`. -/
def next_unique_start : ℕ := 1

/-- One evaluation of the compiled `unique` expression:
`return m_next_unique_num++;` — yield the current counter (as a double),
then increment it. -/
def unique_val (counter : ℕ) : ℚ × ℕ :=
  ((counter : ℚ), counter + 1)

/-- The values produced by `k` successive evaluations of `unique` starting
from counter state `counter`, together with the final counter. -/
def unique_run : ℕ → ℕ → List ℚ × ℕ
  | 0, counter => ([], counter)
  | k + 1, counter =>
      ((unique_val counter).1 :: (unique_run k (unique_val counter).2).1,
       (unique_run k (unique_val counter).2).2)

/-! ## The runtime frame stacks (FrameStack.h)

`FrameStack<double>` holds a value vector, the current frame start, and a
vector of saved frame starts.  Failed `assert`s in the source abort the
process; they are modelled as `none`. -/

structure FrameStackM where
  stack : List ℚ
  frame_start : ℕ
  frames : List ℕ

namespace FrameStackM

/-- Source `FrameStack::push`. -/
def push (fs : FrameStackM) (v : ℚ) : FrameStackM :=
  { fs with stack := fs.stack ++ [v] }

/-- Source `FrameStack::pop(size)`: asserts `m_frame_start + size <= m_stack.size()`,
then shrinks the vector by `size`. -/
def pop (fs : FrameStackM) (n : ℕ) : Option FrameStackM :=
  if fs.frame_start + n ≤ fs.stack.length then
    some { fs with stack := fs.stack.take (fs.stack.length - n) }
  else none

/-- Source `FrameStack::push_frame(args_size, params_size)`: asserts
`params_size <= args_size` and that at least `args_size` entries sit above
the current frame start; saves the previous frame start; starts the new
frame `args_size` below the top; truncates to `params_size` entries when
`params_size < args_size`. -/
def push_frame (fs : FrameStackM) (args_size params_size : ℕ) : Option FrameStackM :=
  if params_size ≤ args_size ∧ fs.frame_start + args_size ≤ fs.stack.length then
    some { stack :=
             if params_size < args_size then
               fs.stack.take (fs.stack.length - args_size + params_size)
             else fs.stack,
           frame_start := fs.stack.length - args_size,
           frames := fs.frame_start :: fs.frames }
  else none

/-- Source `FrameStack::pop_frame`: asserts the frame list is non-empty, restores
the previous frame start, and pops the closed frame (its size must be
non-negative and must not reach below the restored frame start, per the
asserts of `get_frame_size`/`pop`). -/
def pop_frame (fs : FrameStackM) : Option FrameStackM :=
  match fs.frames with
  | [] => none
  | f :: rest =>
      if fs.frame_start ≤ fs.stack.length ∧ f ≤ fs.frame_start then
        some { stack := fs.stack.take fs.frame_start,
               frame_start := f,
               frames := rest }
      else none

/-- Source `FrameStack::operator[]`: frame-relative read (offset may be −1 for
the closure-position word).  The source asserts the index is in range; the
default 0 models the asserted-unreachable path. -/
def read_rel (fs : FrameStackM) (offset : ℤ) : ℚ :=
  fs.stack.getD ((fs.frame_start : ℤ) + offset).toNat 0

/-- Source `FrameStack::read_global`: absolute read from the stack base. -/
def read_global (fs : FrameStackM) (offset : ℕ) : ℚ :=
  fs.stack.getD offset 0

end FrameStackM

/-- Source `EngineStack::Size` (ASTNode.h): a pair of per-stack sizes. -/
structure StackSize where
  locals : ℕ
  captures : ℕ
  deriving DecidableEq, Repr

/-- Source `EngineStack` (ASTNode.h): the Locals and Captures frame stacks. -/
structure EngineStackM where
  locals : FrameStackM
  captures : FrameStackM

namespace EngineStackM

def push_local (st : EngineStackM) (v : ℚ) : EngineStackM :=
  { st with locals := st.locals.push v }

def push_capture (st : EngineStackM) (v : ℚ) : EngineStackM :=
  { st with captures := st.captures.push v }

/-- Source `EngineStack::pop(Size)`. -/
def pop (st : EngineStackM) (n : StackSize) : Option EngineStackM :=
  match st.locals.pop n.locals, st.captures.pop n.captures with
  | some l, some c => some ⟨l, c⟩
  | _, _ => none

/-- Source `EngineStack::push_frame(args, params)`. -/
def push_frame (st : EngineStackM) (args params : StackSize) : Option EngineStackM :=
  match st.locals.push_frame args.locals params.locals,
        st.captures.push_frame args.captures params.captures with
  | some l, some c => some ⟨l, c⟩
  | _, _ => none

/-- Source `EngineStack::pop_frame`. -/
def pop_frame (st : EngineStackM) : Option EngineStackM :=
  match st.locals.pop_frame, st.captures.pop_frame with
  | some l, some c => some ⟨l, c⟩
  | _, _ => none

/-- Source `EngineStack::check_stack_size(max_size)`: the size of each stack,
separately, must be below `max_size`. -/
def check_stack_size (st : EngineStackM) (max_size : ℕ) : Bool :=
  st.locals.stack.length < max_size && st.captures.stack.length < max_size

/-- Source `EngineStack::get_closure_position`: the word just below the current
locals frame, coerced back to an index (the source asserts it is a
non-negative integer). -/
def get_closure_position (st : EngineStackM) : ℕ :=
  (st.locals.read_rel (-1)).num.toNat

/-- Source `EngineStack::read_capture(offset)`: absolute read on the captures
stack at closure position + offset. -/
def read_capture (st : EngineStackM) (offset : ℕ) : ℚ :=
  st.captures.read_global (st.get_closure_position + offset)

end EngineStackM

/-- Source `infinite_recursion_limit` (Engine.cpp). -/
def infinite_recursion_limit : ℕ := 1000000

/-- The guard at the top of `ExecutionEngine::exec_statements`: the
`InfiniteRecursionException` is thrown exactly when
`check_stack_size(infinite_recursion_limit)` fails. -/
def exec_statements_throws (st : EngineStackM) : Bool :=
  ! st.check_stack_size infinite_recursion_limit

/-! ## The compiled for-loop drivers (Engine.cpp `compile_for_loop`)

The statement compiled for `for s..step..e` (and for `for s..e`) captures
the three argument expressions and, when executed, evaluates them once
each — start, then step, then end — before iterating.  Expressions are
modelled as state transformers `σ → ℚ × σ` so that "evaluated exactly
once" is observable; pushing the named loop variable and invoking the
local block of the body are abstracted into `body`, which receives the loop
value of the iteration. -/

section ForLoop

variable {σ : Type}

/-- The ascending loop `for(; s <= e; s += inc) body(s)`, fuel-bounded. -/
def asc_run (body : ℚ → σ → σ) (inc e : ℚ) : ℕ → ℚ → σ → σ
  | 0, _, st => st
  | fuel + 1, s, st =>
      if s ≤ e then asc_run body inc e fuel (s + inc) (body s st) else st

/-- The descending loop `for(; s >= e; s -= inc) body(s)`, fuel-bounded. -/
def desc_run (body : ℚ → σ → σ) (inc e : ℚ) : ℕ → ℚ → σ → σ
  | 0, _, st => st
  | fuel + 1, s, st =>
      if s ≥ e then desc_run body inc e fuel (s - inc) (body s st) else st

/-- The runtime behaviour of the statement compiled for
`for start..step..end`: evaluate the three captured expressions in order,
then run the ascending loop, or (negating a negative step first) the
descending loop. -/
def for_loop_full_stmt (start step stop : σ → ℚ × σ) (body : ℚ → σ → σ)
    (fuel : ℕ) (st : σ) : σ :=
  let p1 := start st
  let p2 := step p1.2
  let p3 := stop p2.2
  if p1.1 ≤ p3.1 then
    asc_run body p2.1 p3.1 fuel p1.1 p3.2
  else
    desc_run body (if p2.1 < 0 then -p2.1 else p2.1) p3.1 fuel p1.1 p3.2

/-- The runtime behaviour of the statement compiled for `for start..end`
(no step): the step defaults to 1 in both directions. -/
def for_loop_default_stmt (start stop : σ → ℚ × σ) (body : ℚ → σ → σ)
    (fuel : ℕ) (st : σ) : σ :=
  let p1 := start st
  let p2 := stop p1.2
  if p1.1 ≤ p2.1 then
    asc_run body 1 p2.1 fuel p1.1 p2.2
  else
    desc_run body 1 p2.1 fuel p1.1 p2.2

/-- Spec-level iteration values of the ascending direction: `s, s+inc, …`
while the value is ≤ `e`. -/
def asc_vals (inc e : ℚ) : ℕ → ℚ → List ℚ
  | 0, _ => []
  | fuel + 1, s => if s ≤ e then s :: asc_vals inc e fuel (s + inc) else []

/-- Spec-level iteration values of the descending direction: `s, s−inc, …`
while the value is ≥ `e`. -/
def desc_vals (inc e : ℚ) : ℕ → ℚ → List ℚ
  | 0, _ => []
  | fuel + 1, s => if s ≥ e then s :: desc_vals inc e fuel (s - inc) else []

/-- Spec-level iteration values of `for s..step..e`: ascending by `step`
when `s ≤ e`, else descending by `|step|`. -/
def for_full_vals (s inc e : ℚ) (fuel : ℕ) : List ℚ :=
  if s ≤ e then asc_vals inc e fuel s else desc_vals |inc| e fuel s

/-- Spec-level iteration values of `for s..e`: step 1 in both directions. -/
def for_default_vals (s e : ℚ) (fuel : ℕ) : List ℚ :=
  if s ≤ e then asc_vals 1 e fuel s else desc_vals 1 e fuel s

/-- Run the body once per listed iteration value, in order. -/
def run_body (body : ℚ → σ → σ) (vals : List ℚ) (st : σ) : σ :=
  vals.foldl (fun st v => body v st) st

end ForLoop

/-! ## Eager versus short-circuit expression evaluation (claim C4)

The closures composed by `MakeBinaryOp<op>::create` evaluate *both*
operand closures and then apply `binary_op<op>` — the source notes that
`&&`/`||` "could short-circuit" but do not.  The only state an expression
can read and modify is the `unique` counter, so expressions are evaluated
against a counter state. -/

inductive EExpr where
  | const (c : ℚ)
  | uniq
  | preE (op : PrefixOp) (e : EExpr)
  | binE (op : BinOp) (l r : EExpr)

/-- What the compiled closures do: every operand is evaluated (left to
right), and the operator is applied to the results. -/
def eval_eager : EExpr → ℕ → ℚ × ℕ
  | .const c, n => (c, n)
  | .uniq, n => unique_val n
  | .preE op e, n =>
      (prefix_op op (eval_eager e n).1, (eval_eager e n).2)
  | .binE op l r, n =>
      (binary_op op (eval_eager l n).1 (eval_eager r (eval_eager l n).2).1,
       (eval_eager r (eval_eager l n).2).2)

/-- The short-circuiting reference evaluator: `&&` skips the right operand
when the left is falsy, `||` skips it when the left is truthy; all other
operators evaluate both operands. -/
def eval_sc : EExpr → ℕ → ℚ × ℕ
  | .const c, n => (c, n)
  | .uniq, n => unique_val n
  | .preE op e, n =>
      (prefix_op op (eval_sc e n).1, (eval_sc e n).2)
  | .binE .tkAnd l r, n =>
      if (eval_sc l n).1 ≠ 0 then
        (if (eval_sc r (eval_sc l n).2).1 ≠ 0 then (eval_sc r (eval_sc l n).2).1 else 0,
         (eval_sc r (eval_sc l n).2).2)
      else (0, (eval_sc l n).2)
  | .binE .tkOr l r, n =>
      if (eval_sc l n).1 ≠ 0 then ((eval_sc l n).1, (eval_sc l n).2)
      else
        (if (eval_sc r (eval_sc l n).2).1 ≠ 0 then (eval_sc r (eval_sc l n).2).1 else 0,
         (eval_sc r (eval_sc l n).2).2)
  | .binE op l r, n =>
      (binary_op op (eval_sc l n).1 (eval_sc r (eval_sc l n).2).1,
       (eval_sc r (eval_sc l n).2).2)

/-- Returns `true` when the expression contains no `unique`. -/
def unique_free : EExpr → Bool
  | .const _ => true
  | .uniq => false
  | .preE _ e => unique_free e
  | .binE _ l r => unique_free l && unique_free r

/-! ## The executor (Engine.cpp)

The statements of a chunk are the deferred actions appended by the
`compile_*` builders; each becomes a constructor below, carrying exactly
the data its closure captures in the source.  Compiled expressions
(`Expr` in the engine) read the stacks and the turtle but never modify
the stacks, so for the stack-shape claims they are modelled as pure reads
`EngineStackM → ℚ`; the `unique` counter, which an expression does
modify, cannot affect stack sizes and is studied separately above.
`assert` failures, `InfiniteRecursionException`, and turtle errors all
end execution abnormally: all are `none`. -/

def EngExpr : Type := EngineStackM → ℚ

/-- Source `ExecutionEngine::ValueDomain`. -/
inductive Domain where
  | global
  | capture
  | local
  deriving DecidableEq, Repr

/-- The templatized `read<source>` of the engine: frame-relative for
locals, absolute for globals, closure-relative for captures. -/
def read_domain (st : EngineStackM) : Domain → ℤ → ℚ
  | .local, off => st.locals.read_rel off
  | .global, off => st.locals.read_global off.toNat
  | .capture, off => st.read_capture off.toNat

/-- The templatized `push<dest>`: `dest` is Local or Capture (Global is
an asserted-unreachable destination). -/
def push_domain (st : EngineStackM) (dest_local : Bool) (v : ℚ) : EngineStackM :=
  if dest_local then st.push_local v else st.push_capture v

/-- Source `ExecutionEngine::copy_stack<source, dest>`: push `size` values read
from `source` at consecutive offsets. -/
def copy_stack (dest_local : Bool) (src : Domain) :
    ℕ → ℤ → EngineStackM → EngineStackM
  | 0, _, st => st
  | size + 1, offset, st =>
      copy_stack dest_local src size (offset + 1)
        (push_domain st dest_local (read_domain st src offset))

/-- One compiled statement, as appended by the `compile_*` builders.
Chunk references are indices; an `else_body` of 0 means "no else branch"
(chunk 0 is reserved). -/
inductive Stmt where
  | push_value (dest_local : Bool) (e : EngExpr)
  | push_constant (dest_local : Bool) (c : ℚ)
  | push_copy (dest_local : Bool) (src : Domain) (offset : ℤ) (size : ℕ)
  | push_lambda (dest_local : Bool) (fn_index : ℕ) (self_rec : Bool)
  | start_fn_call (fn_index : ℕ) (self_rec : Bool)
  | call_fn (fn_index : ℕ) (args : StackSize)
  | start_lambda_call (src : Domain) (offset : ℤ)
  | call_lambda_fn (src : Domain) (offset : ℤ) (args : StackSize)
  | if_stmt (cond : EngExpr) (if_body : ℕ) (else_body : ℕ)
  | for_count (start : EngExpr) (blk : ℕ) (named : Bool)
  | for_default (start stop : EngExpr) (blk : ℕ) (named : Bool)
  | for_full (start step stop : EngExpr) (blk : ℕ) (named : Bool)
  | breakpoint

/-- Source `ExecutionEngine::ChunkType`. -/
inductive ChunkType where
  | builtin_function
  | function
  | local_block
  deriving DecidableEq, Repr

/-- Source `ExecutionEngine::Chunk`.  The source keeps `FunctionInfo` and
`LocalBlockInfo` in a union selected by `type`; here both are present and
the irrelevant one is ignored.  A `closure_offset` of C++ −1 ("not a
closure") is `none`. -/
structure Chunk where
  ctype : ChunkType
  params_size : ℕ
  closure_offset : Option ℕ
  unwind : StackSize
  statements : List Stmt

def Chunk.is_call_frame (c : Chunk) : Bool :=
  match c.ctype with
  | .local_block => false
  | _ => true

def Chunk.is_local_block (c : Chunk) : Bool :=
  match c.ctype with
  | .local_block => true
  | _ => false

def Chunk.is_closure (c : Chunk) : Bool :=
  c.is_call_frame && c.closure_offset.isSome

/-- Source `get_fn_call_closure_position<is_self_recursion>`: the current
closure position of the current frame for self-recursion, else the captures-frame
start plus the closure offset of the target. -/
def fn_call_closure_position (st : EngineStackM) (self_rec : Bool)
    (closure_offset : ℕ) : ℕ :=
  if self_rec then st.get_closure_position
  else st.captures.frame_start + closure_offset

/-- Source `exec_start_fn_call<dest, is_self_recursion, is_lambda_call>`:
for a lambda push, first the chunk index; then the closure position if
the target is a closure, else (lambda only) a zero word. -/
def exec_start_fn_call (chunks : List Chunk) (dest_local : Bool)
    (self_rec is_lambda_call : Bool) (fn_index : ℕ) (st : EngineStackM) :
    Option EngineStackM :=
  let st1 := if is_lambda_call then push_domain st dest_local (fn_index : ℚ) else st
  match chunks[fn_index]? with
  | none => none
  | some c =>
    if c.is_closure then
      some (push_domain st1 dest_local
        ((fn_call_closure_position st1 self_rec (c.closure_offset.getD 0) : ℕ) : ℚ))
    else if is_lambda_call then
      some (push_domain st1 dest_local 0)
    else
      some st1

/-- A rational read off the stack reused as a chunk index must be a
non-negative integer (`assert(fn_index >= 0)`,
`assert(fmod(fn_index, 1.0) == 0)`). -/
def as_chunk_index (v : ℚ) : Option ℕ :=
  if v.den = 1 ∧ 0 ≤ v.num then some v.num.toNat else none

/-- Checked ascending iteration values: `none` when the fuel runs out
before the loop condition fails. -/
def asc_vals_chk (inc e : ℚ) : ℕ → ℚ → Option (List ℚ)
  | 0, s => if s ≤ e then none else some []
  | fuel + 1, s =>
      if s ≤ e then (asc_vals_chk inc e fuel (s + inc)).map (fun vs => s :: vs)
      else some []

/-- Checked descending iteration values. -/
def desc_vals_chk (inc e : ℚ) : ℕ → ℚ → Option (List ℚ)
  | 0, s => if s ≥ e then none else some []
  | fuel + 1, s =>
      if s ≥ e then (desc_vals_chk inc e fuel (s - inc)).map (fun vs => s :: vs)
      else some []

/-- Source `for N`: `int count = (int)start()`, iterating `i = 0 … count−1`
(truncation towards zero; a negative count runs no iteration, so the
clamped-to-ℕ floor value coincides with the C++ cast here). -/
def count_vals (q : ℚ) : List ℚ :=
  (List.range ⌊q⌋.toNat).map (fun i => (i : ℚ))

/-- One pending piece of execution work.  `enter` is
`exec_statements` (overflow guard, then the sequence); `call_fn` /
`call_lambda` / `local_block` are the corresponding `exec_*` members;
`for_iter` is the iteration tail of a compiled loop statement with its
remaining values. -/
inductive Task where
  | enter (l : List Stmt)
  | stmts (l : List Stmt)
  | stmt (s : Stmt)
  | call_fn (fn : ℕ) (args : StackSize)
  | call_lambda (fn : ℕ) (args : StackSize)
  | local_block (blk : ℕ)
  | for_iter (vals : List ℚ) (blk : ℕ) (named : Bool)

/-- The fuel-bounded executor.  Fuel exhaustion is `none`: the run fails
to complete at this bound.  Each case transcribes the corresponding
member of `ExecutionEngine`. -/
def run (chunks : List Chunk) : ℕ → Task → EngineStackM → Option EngineStackM
  | 0, _, _ => none
  | fuel + 1, t, st =>
    match t with
    | .enter l =>
        -- exec_statements: the infinite-recursion guard, then the body.
        if exec_statements_throws st then none
        else run chunks fuel (.stmts l) st
    | .stmts [] => some st
    | .stmts (s :: rest) =>
        match run chunks fuel (.stmt s) st with
        | none => none
        | some st1 => run chunks fuel (.stmts rest) st1
    | .stmt s =>
      match s with
      | .push_value dest e => some (push_domain st dest (e st))
      | .push_constant dest c => some (push_domain st dest c)
      | .push_copy dest src offset size => some (copy_stack dest src size offset st)
      | .push_lambda dest fn self_rec =>
          exec_start_fn_call chunks dest self_rec true fn st
      | .start_fn_call fn self_rec =>
          exec_start_fn_call chunks true self_rec false fn st
      | .call_fn fn args => run chunks fuel (.call_fn fn args) st
      | .start_lambda_call src offset =>
          some (st.push_local (read_domain st src (offset + 1)))
      | .call_lambda_fn src offset args =>
          match as_chunk_index (read_domain st src offset) with
          | none => none
          | some fn => run chunks fuel (.call_lambda fn args) st
      | .if_stmt cond if_body else_body =>
          if cond st ≠ 0 then run chunks fuel (.local_block if_body) st
          else if else_body ≠ 0 then run chunks fuel (.local_block else_body) st
          else some st
      | .for_count start blk named =>
          run chunks fuel (.for_iter (count_vals (start st)) blk named) st
      | .for_default start stop blk named =>
          match (if start st ≤ stop st then asc_vals_chk 1 (stop st) fuel (start st)
                 else desc_vals_chk 1 (stop st) fuel (start st)) with
          | none => none
          | some vals => run chunks fuel (.for_iter vals blk named) st
      | .for_full start step stop blk named =>
          match (if start st ≤ stop st then
                   asc_vals_chk (step st) (stop st) fuel (start st)
                 else
                   desc_vals_chk (if step st < 0 then -step st else step st)
                     (stop st) fuel (start st)) with
          | none => none
          | some vals => run chunks fuel (.for_iter vals blk named) st
      | .breakpoint => some st
    | .call_fn fn args =>
        -- exec_call_fn: look up the chunk and run exec_fn_body with the
        -- params_size and is_closure flag of the chunk.
        match chunks[fn]? with
        | none => none
        | some c =>
          if c.is_call_frame then
            match st.push_frame ⟨args.locals, 0⟩ ⟨c.params_size, 0⟩ with
            | none => none
            | some st1 =>
              match run chunks fuel (.enter c.statements) st1 with
              | none => none
              | some st2 =>
                match st2.pop_frame with
                | none => none
                | some st3 =>
                  st3.pop ⟨if c.is_closure then 1 else 0, args.captures⟩
          else none
    | .call_lambda fn args =>
        -- exec_call_lambda: as exec_call_fn, but has_closure_position is
        -- always true.
        match chunks[fn]? with
        | none => none
        | some c =>
          if c.is_call_frame then
            match st.push_frame ⟨args.locals, 0⟩ ⟨c.params_size, 0⟩ with
            | none => none
            | some st1 =>
              match run chunks fuel (.enter c.statements) st1 with
              | none => none
              | some st2 =>
                match st2.pop_frame with
                | none => none
                | some st3 => st3.pop ⟨1, args.captures⟩
          else none
    | .local_block blk =>
        -- exec_call_local_block: no frame; run, then pop the recorded
        -- unwind size.
        match chunks[blk]? with
        | none => none
        | some c =>
          if c.is_local_block then
            match run chunks fuel (.enter c.statements) st with
            | none => none
            | some st1 => st1.pop c.unwind
          else none
    | .for_iter [] _ _ => some st
    | .for_iter (v :: rest) blk named =>
        -- one loop iteration: push the named loop variable if present,
        -- run the body block, continue.
        match run chunks fuel (.local_block blk)
                (if named then st.push_local v else st) with
        | none => none
        | some st1 => run chunks fuel (.for_iter rest blk named) st1

/-- Source `EngineStack::reset`, as called at the top of `execute_main`. -/
def engine_reset : EngineStackM := ⟨⟨[], 0, []⟩, ⟨[], 0, []⟩⟩

/-- Source `ExecutionEngine::execute_main(chunk_index)`: reset both stacks, then
call the chunk with empty argument sizes. -/
def execute_main (chunks : List Chunk) (chunk_index fuel : ℕ) :
    Option EngineStackM :=
  run chunks fuel (.call_fn chunk_index ⟨0, 0⟩) engine_reset

/-- Two states with identical frame bookkeeping on both stacks: same
current frame start and same saved-frame list (the value contents may
differ). -/
def same_frames (a b : EngineStackM) : Prop :=
  a.locals.frame_start = b.locals.frame_start ∧
    a.locals.frames = b.locals.frames ∧
    a.captures.frame_start = b.captures.frame_start ∧
    a.captures.frames = b.captures.frames

/-!
# Theorems
-/

/-! ## Constant folding (claim C1) -/

theorem evalNode_create_prefix_op_expr (op : PrefixOp) (rhs : ASTNode) :
    evalNode (create_prefix_op_expr op rhs) = prefix_op op (evalNode rhs) := by
  cases rhs <;> simp [create_prefix_op_expr, ASTNode.is_constexpr,
    ASTNode.get_constant, ASTNode.get_expression, evalNode]

theorem evalNode_create_binary_op_expr (op : BinOp) (lhs rhs : ASTNode) :
    evalNode (create_binary_op_expr op lhs rhs) =
      binary_op op (evalNode lhs) (evalNode rhs) := by
  cases lhs <;> cases rhs <;> simp [create_binary_op_expr, ASTNode.is_constexpr,
    ASTNode.get_constant, ASTNode.get_expression, evalNode]

theorem evalNode_create_conditional_expr (lhs rhs third : ASTNode) :
    evalNode (create_conditional_expr lhs rhs third) =
      if evalNode lhs ≠ 0 then evalNode rhs else evalNode third := by
  cases lhs <;> cases rhs <;> cases third <;>
    simp [create_conditional_expr, ASTNode.is_constexpr,
      ASTNode.get_constant, ASTNode.get_expression, evalNode]

/-- C1, counterexample: the all-constant ternary `1 ? 2 : 3` is built as a
deferred Expression node, not as the Constant node 2 that eager evaluation
would give. -/
theorem create_conditional_expr_constants_not_folded :
    (create_conditional_expr (ASTNode.constant 1) (ASTNode.constant 2)
        (ASTNode.constant 3)).is_constexpr = false ∧
      create_conditional_expr (ASTNode.constant 1) (ASTNode.constant 2)
        (ASTNode.constant 3) ≠ ASTNode.constant 2 := by
  constructor
  · rfl
  · intro h
    have h2 : (create_conditional_expr (ASTNode.constant 1) (ASTNode.constant 2)
        (ASTNode.constant 3)).is_constexpr = false := rfl
    rw [h] at h2
    simp [ASTNode.is_constexpr] at h2

/-- C1, amended: for every constant-leaf expression the built node
evaluates to the eagerly computed value; and when the expression contains
no ternary operator the node is the folded Constant itself. -/
theorem constant_folding_preserves_value (t : ExprTree) :
    evalNode (buildAST t) = evalTree t ∧
      (ternary_free t = true → buildAST t = ASTNode.constant (evalTree t)) := by
  induction t with
  | leaf c => exact ⟨rfl, fun _ => rfl⟩
  | pre op t ih =>
      refine ⟨?_, ?_⟩
      · rw [buildAST, evalNode_create_prefix_op_expr, ih.1, evalTree]
      · intro h
        rw [ternary_free] at h
        rw [buildAST, ih.2 h, evalTree]
        simp [create_prefix_op_expr, ASTNode.is_constexpr, ASTNode.get_constant]
  | bin op l r ihl ihr =>
      refine ⟨?_, ?_⟩
      · rw [buildAST, evalNode_create_binary_op_expr, ihl.1, ihr.1, evalTree]
      · intro h
        rw [ternary_free, Bool.and_eq_true] at h
        rw [buildAST, ihl.2 h.1, ihr.2 h.2, evalTree]
        simp [create_binary_op_expr, ASTNode.is_constexpr, ASTNode.get_constant]
  | ternary c t e ihc iht ihe =>
      refine ⟨?_, ?_⟩
      · rw [buildAST, evalNode_create_conditional_expr, ihc.1, iht.1, ihe.1,
          evalTree]
      · intro h
        exact absurd h (by rw [ternary_free]; simp)

/-- C1 witness: a concrete ternary-free constant expression, `1 + 2`,
folds to the Constant node 3. -/
theorem constant_folding_preserves_value_witness :
    evalTree (ExprTree.bin BinOp.tkPlus (ExprTree.leaf 1) (ExprTree.leaf 2)) = 3 ∧
      buildAST (ExprTree.bin BinOp.tkPlus (ExprTree.leaf 1) (ExprTree.leaf 2)) =
        ASTNode.constant
          (evalTree (ExprTree.bin BinOp.tkPlus (ExprTree.leaf 1) (ExprTree.leaf 2))) :=
  ⟨by norm_num [evalTree, binary_op],
   (constant_folding_preserves_value
     (ExprTree.bin BinOp.tkPlus (ExprTree.leaf 1) (ExprTree.leaf 2))).2 (by decide)⟩

/-! ## The infinite-recursion guard (claim C3) -/

/-- C3, counterexample: with 600,000 locals and 500,000 captures the
combined size reaches the limit of 1,000,000 slots, yet the guard does not
throw — it compares each stack separately. -/
theorem overflow_guard_counterexample :
    exec_statements_throws
        ⟨⟨List.replicate 600000 0, 0, []⟩, ⟨List.replicate 500000 0, 0, []⟩⟩ = false ∧
      infinite_recursion_limit ≤
        (⟨⟨List.replicate 600000 0, 0, []⟩, ⟨List.replicate 500000 0, 0, []⟩⟩ :
            EngineStackM).locals.stack.length +
          (⟨⟨List.replicate 600000 0, 0, []⟩, ⟨List.replicate 500000 0, 0, []⟩⟩ :
              EngineStackM).captures.stack.length := by
  constructor
  · simp only [exec_statements_throws, EngineStackM.check_stack_size,
      List.length_replicate, infinite_recursion_limit]
    decide
  · simp only [List.length_replicate, infinite_recursion_limit]
    omega

/-- C3, amended: the exec_statements guard throws the
InfiniteRecursionException if and only if the Locals stack size or the
Captures stack size (each taken separately) has reached the
infinite-recursion limit. -/
theorem exec_statements_throws_iff (st : EngineStackM) :
    exec_statements_throws st = true ↔
      infinite_recursion_limit ≤ st.locals.stack.length ∨
        infinite_recursion_limit ≤ st.captures.stack.length := by
  rw [exec_statements_throws, EngineStackM.check_stack_size]
  simp only [Bool.not_eq_true', Bool.and_eq_false_iff]
  constructor
  · rintro (h | h) <;> simp at h <;> omega
  · rintro (h | h)
    · left; simpa using h
    · right; simpa using h

/-! ## The name environment (claim C6) -/

/-- C6: the code contradicts its own documented contract.  With the name
`x` already present in the innermost context, `define_name("x", true)`
must, per the documentation blocks of `LexicalContextStack::define_name`
and `NameInterface::define_name`, return a reference to the existing
definition; the implementation ignores `accept_dup` and fails. -/
theorem define_name_ignores_accept_dup :
    define_name [[("x", 0)]] "x" true = none ∧
      define_name_documented [[("x", 0)]] "x" true = some [[("x", 0)]] := by
  constructor <;> rfl

/-! ## Pratt operator metadata (claim C7) -/

/-- C7: `postfix_binds_more_tightly(outer)` holds exactly when the
postfix precedence is non-zero and is either strictly smaller than the
outer precedence, or equal to it with right-to-left associativity. -/
theorem postfix_binds_more_tightly_spec (info : OpInfo) (outer : ℤ) :
    info.postfix_binds_more_tightly outer = true ↔
      info.precedence ≠ 0 ∧
        (info.precedence < outer ∨
          (info.precedence = outer ∧ info.left_to_right = false)) := by
  rw [OpInfo.postfix_binds_more_tightly]
  split_ifs with h1 h2
  · simp only [Bool.false_eq_true, false_iff]
    rintro ⟨hne, hlt | ⟨heq, _⟩⟩ <;> omega
  · simp only [Bool.false_eq_true, false_iff]
    rintro ⟨hne, hlt | ⟨heq, hl⟩⟩
    · omega
    · rw [h2.2] at hl
      exact absurd hl (by simp)
  · simp only [true_iff]
    push_neg at h1 h2
    refine ⟨h1.1, ?_⟩
    rcases lt_or_eq_of_le h1.2 with hlt | heq
    · exact Or.inl hlt
    · right
      refine ⟨heq, ?_⟩
      have := h2 heq
      simp [this]

/-! ## The unique counter (claim C9) -/

theorem unique_run_from (k c : ℕ) :
    unique_run k c =
      ((List.range k).map (fun i => ((c + i : ℕ) : ℚ)), c + k) := by
  induction k generalizing c with
  | zero => simp [unique_run]
  | succ k ih =>
      rw [unique_run]
      simp only [unique_val, ih (c + 1), List.range_succ_eq_map,
        List.map_cons, List.map_map, Prod.mk.injEq]
      have hf : (fun i => ((c + 1 + i : ℕ) : ℚ)) =
          ((fun i => ((c + i : ℕ) : ℚ)) ∘ Nat.succ) := by
        funext i
        simp only [Function.comp]
        congr 1
        omega
      constructor
      · rw [hf]
        simp
      · omega

/-- C9: the counter starts at 1; each evaluation of `unique` returns the
current counter and increments it; hence the k-th evaluation returns k,
i.e. successive evaluations return 1, 2, 3, …. -/
theorem unique_values_consecutive (k : ℕ) :
    (unique_run k next_unique_start).1 =
        (List.range k).map (fun i => ((i + 1 : ℕ) : ℚ)) ∧
      (unique_run k next_unique_start).2 = k + 1 ∧
      ∀ c : ℕ, unique_val c = ((c : ℚ), c + 1) := by
  rw [unique_run_from k next_unique_start, next_unique_start]
  refine ⟨?_, by omega, fun c => rfl⟩
  apply List.map_congr_left
  intro i _
  congr 1
  omega

/-! ## For-loop semantics (claim C2) -/

theorem asc_run_eq_run_body {σ : Type} (body : ℚ → σ → σ) (inc e : ℚ) :
    ∀ (fuel : ℕ) (s : ℚ) (st : σ),
      asc_run body inc e fuel s st = run_body body (asc_vals inc e fuel s) st := by
  intro fuel
  induction fuel with
  | zero => intro s st; rfl
  | succ fuel ih =>
      intro s st
      rw [asc_run, asc_vals]
      split_ifs with h
      · rw [ih]; rfl
      · rfl

theorem desc_run_eq_run_body {σ : Type} (body : ℚ → σ → σ) (inc e : ℚ) :
    ∀ (fuel : ℕ) (s : ℚ) (st : σ),
      desc_run body inc e fuel s st = run_body body (desc_vals inc e fuel s) st := by
  intro fuel
  induction fuel with
  | zero => intro s st; rfl
  | succ fuel ih =>
      intro s st
      rw [desc_run, desc_vals]
      split_ifs with h
      · rw [ih]; rfl
      · rfl

/-- C2: the compiled `for s..step..e` statement evaluates start, step and
end exactly once each, in that order, before the first iteration, then
runs the body once per spec-level iteration value (ascending by `step`
while ≤ end when start ≤ end, else descending by `|step|` while ≥ end);
the default-step form behaves the same with step 1; concretely,
`for 1..5..10` iterates at 1 and 6, and `for 3..1` iterates at 3, 2, 1. -/
theorem compile_for_loop_spec {σ : Type} (start step stop : σ → ℚ × σ)
    (body : ℚ → σ → σ) (fuel : ℕ) (st : σ) :
    (for_loop_full_stmt start step stop body fuel st =
        run_body body
          (for_full_vals (start st).1 (step (start st).2).1
            (stop (step (start st).2).2).1 fuel)
          (stop (step (start st).2).2).2) ∧
      (for_loop_default_stmt start stop body fuel st =
        run_body body
          (for_default_vals (start st).1 (stop (start st).2).1 fuel)
          (stop (start st).2).2) ∧
      for_full_vals 1 5 10 5 = [1, 6] ∧
      for_default_vals 3 1 5 = [3, 2, 1] := by
  have habs : ∀ q : ℚ, |q| = if q < 0 then -q else q := by
    intro q
    split_ifs with hq
    · exact abs_of_neg hq
    · exact abs_of_nonneg (le_of_not_lt hq)
  have hstop_asc : ∀ (inc e s : ℚ) (fuel : ℕ),
      ¬ s ≤ e → asc_vals inc e fuel s = [] := by
    intro inc e s fuel h
    cases fuel
    · rfl
    · rw [asc_vals, if_neg h]
  have hstop_desc : ∀ (inc e s : ℚ) (fuel : ℕ),
      ¬ s ≥ e → desc_vals inc e fuel s = [] := by
    intro inc e s fuel h
    cases fuel
    · rfl
    · rw [desc_vals, if_neg h]
  refine ⟨?_, ?_, ?_, ?_⟩
  · simp only [for_loop_full_stmt, for_full_vals]
    by_cases h : (start st).1 ≤ (stop (step (start st).2).2).1
    · rw [if_pos h, if_pos h]
      exact asc_run_eq_run_body body _ _ fuel _ _
    · rw [if_neg h, if_neg h, desc_run_eq_run_body body _ _ fuel _ _, habs]
  · simp only [for_loop_default_stmt, for_default_vals]
    split_ifs with h
    · exact asc_run_eq_run_body body 1 _ fuel _ _
    · exact desc_run_eq_run_body body 1 _ fuel _ _
  · rw [for_full_vals, if_pos (by norm_num : (1 : ℚ) ≤ 10)]
    rw [show (5 : ℕ) = 4 + 1 from rfl, asc_vals,
      if_pos (by norm_num : (1 : ℚ) ≤ 10)]
    rw [show (4 : ℕ) = 3 + 1 from rfl, asc_vals]
    norm_num
    exact hstop_asc 5 10 11 3 (by norm_num)
  · rw [for_default_vals, if_neg (by norm_num : ¬ (3 : ℚ) ≤ 1)]
    rw [show (5 : ℕ) = 4 + 1 from rfl, desc_vals,
      if_pos (by norm_num : (3 : ℚ) ≥ 1)]
    rw [show (4 : ℕ) = 3 + 1 from rfl, desc_vals]
    norm_num
    rw [show (3 : ℕ) = 2 + 1 from rfl, desc_vals]
    norm_num
    exact hstop_desc 1 1 0 2 (by norm_num)

/-! ## Eager versus short-circuit evaluation (claim C4) -/

theorem eval_eager_state_of_unique_free (e : EExpr) :
    unique_free e = true → ∀ n : ℕ, (eval_eager e n).2 = n := by
  induction e with
  | const c => intro _ n; rfl
  | uniq => intro h; simp [unique_free] at h
  | preE op e ih =>
      intro h n
      rw [unique_free] at h
      simp only [eval_eager]
      exact ih h n
  | binE op l r ihl ihr =>
      intro h n
      rw [unique_free, Bool.and_eq_true] at h
      simp only [eval_eager]
      rw [ihr h.2, ihl h.1]

theorem eval_sc_state_of_unique_free (e : EExpr) :
    unique_free e = true → ∀ n : ℕ, (eval_sc e n).2 = n := by
  induction e with
  | const c => intro _ n; rfl
  | uniq => intro h; simp [unique_free] at h
  | preE op e ih =>
      intro h n
      rw [unique_free] at h
      simp only [eval_sc]
      exact ih h n
  | binE op l r ihl ihr =>
      intro h n
      rw [unique_free, Bool.and_eq_true] at h
      cases op <;>
        simp only [eval_sc] <;>
        try rw [ihr h.2, ihl h.1]
      · split_ifs <;> simp only [ihr h.2, ihl h.1]
      · split_ifs <;> simp only [ihr h.2, ihl h.1]

/-- C4, counterexample: for the expression `(0 && unique) + unique`
starting at counter 1, the compiled evaluation (both operands always
evaluated) yields value 2 with final counter 3, while a short-circuiting
evaluator yields value 1 with final counter 2 — neither the numeric
result nor the state agrees. -/
theorem eager_vs_sc_counterexample :
    eval_eager
        (EExpr.binE BinOp.tkPlus
          (EExpr.binE BinOp.tkAnd (EExpr.const 0) EExpr.uniq) EExpr.uniq) 1 =
      (2, 3) ∧
      eval_sc
        (EExpr.binE BinOp.tkPlus
          (EExpr.binE BinOp.tkAnd (EExpr.const 0) EExpr.uniq) EExpr.uniq) 1 =
        (1, 2) := by
  constructor
  · simp only [eval_eager, eval_sc, unique_val, binary_op, Prod.mk.injEq]
    norm_num
  · simp only [eval_eager, eval_sc, unique_val, binary_op, Prod.mk.injEq]
    norm_num

/-- C4, amended: for every `unique`-free expression (the only state an
expression can touch is the `unique` counter) the compiled evaluation
agrees, in value and state, with the short-circuiting evaluator; when a
skipped operand contains `unique` they may differ, because the compiled
closures always evaluate both operands. -/
theorem eager_eq_sc_of_unique_free (e : EExpr) (n : ℕ)
    (h : unique_free e = true) : eval_eager e n = eval_sc e n := by
  induction e generalizing n with
  | const c => rfl
  | uniq => simp [unique_free] at h
  | preE op e ih =>
      rw [unique_free] at h
      simp only [eval_eager, eval_sc]
      rw [ih n h]
  | binE op l r ihl ihr =>
      rw [unique_free, Bool.and_eq_true] at h
      obtain ⟨hl, hr⟩ := h
      have hvl : ∀ m, eval_eager l m = eval_sc l m := fun m => ihl m hl
      have hvr : ∀ m, eval_eager r m = eval_sc r m := fun m => ihr m hr
      have hsl := eval_sc_state_of_unique_free l hl
      have hsr := eval_sc_state_of_unique_free r hr
      cases op <;>
        simp only [eval_eager, eval_sc, hvl, hvr, binary_op] <;>
        split_ifs <;>
        simp_all

/-- C4 witness: a concrete `unique`-free expression with `||`: `0 || 4`
at counter 7 evaluates identically under both evaluators. -/
theorem eager_eq_sc_witness :
    unique_free (EExpr.binE BinOp.tkOr (EExpr.const 0) (EExpr.const 4)) = true ∧
      eval_eager (EExpr.binE BinOp.tkOr (EExpr.const 0) (EExpr.const 4)) 7 =
        eval_sc (EExpr.binE BinOp.tkOr (EExpr.const 0) (EExpr.const 4)) 7 :=
  ⟨by decide,
   eager_eq_sc_of_unique_free
     (EExpr.binE BinOp.tkOr (EExpr.const 0) (EExpr.const 4)) 7 (by decide)⟩

/-! ## push_frame (claim C5) -/

/-- C5: with `params_size ≤ args_size` and at least `args_size` entries
above the current frame start, `push_frame(args, params)` succeeds, saves
the previous frame start, starts the new frame exactly `args_size` below
the old top, truncates the stack to `frame_start + params_size` when
`params_size < args_size`, and leaves every entry below the new frame
start unchanged. -/
theorem push_frame_spec (fs : FrameStackM) (args params : ℕ)
    (h1 : params ≤ args) (h2 : fs.frame_start + args ≤ fs.stack.length) :
    ∃ fs2, fs.push_frame args params = some fs2 ∧
      fs2.frames = fs.frame_start :: fs.frames ∧
      fs2.frame_start = fs.stack.length - args ∧
      (params < args → fs2.stack = fs.stack.take (fs2.frame_start + params)) ∧
      ∀ i, i < fs2.frame_start → fs2.stack[i]? = fs.stack[i]? := by
  refine ⟨⟨if params < args then
             fs.stack.take (fs.stack.length - args + params)
           else fs.stack,
           fs.stack.length - args,
           fs.frame_start :: fs.frames⟩, ?_, rfl, rfl, ?_, ?_⟩
  · rw [FrameStackM.push_frame, if_pos ⟨h1, h2⟩]
  · intro hlt
    simp only [if_pos hlt]
  · intro i hi
    by_cases hp : params < args
    · simp only [if_pos hp]
      exact List.getElem?_take_of_lt (lt_of_lt_of_le hi (Nat.le_add_right _ _))
    · simp only [if_neg hp]

/-- C5 witness: a concrete stack `[10, 20, 30, 40]` with frame start 1,
pushing a frame with 2 arguments and 1 parameter. -/
theorem push_frame_spec_witness :
    ∃ fs2,
      FrameStackM.push_frame ⟨[10, 20, 30, 40], 1, []⟩ 2 1 = some fs2 ∧
        fs2.frames = (⟨[10, 20, 30, 40], 1, []⟩ : FrameStackM).frame_start :: [] ∧
        fs2.frame_start =
          (⟨[10, 20, 30, 40], 1, []⟩ : FrameStackM).stack.length - 2 ∧
        (1 < 2 →
          fs2.stack =
            (⟨[10, 20, 30, 40], 1, []⟩ : FrameStackM).stack.take
              (fs2.frame_start + 1)) ∧
        ∀ i, i < fs2.frame_start →
          fs2.stack[i]? =
            (⟨[10, 20, 30, 40], 1, []⟩ : FrameStackM).stack[i]? :=
  push_frame_spec ⟨[10, 20, 30, 40], 1, []⟩ 2 1 (by decide) (by decide)

/-! ## Execution leaves no residue on the stacks (claim C8) -/

theorem same_frames_refl (a : EngineStackM) : same_frames a a :=
  ⟨rfl, rfl, rfl, rfl⟩

theorem same_frames_trans {a b c : EngineStackM} (h1 : same_frames a b)
    (h2 : same_frames b c) : same_frames a c :=
  ⟨h1.1.trans h2.1, h1.2.1.trans h2.2.1, h1.2.2.1.trans h2.2.2.1,
   h1.2.2.2.trans h2.2.2.2⟩

theorem same_frames_push_domain (st : EngineStackM) (b : Bool) (v : ℚ) :
    same_frames (push_domain st b v) st := by
  cases b <;> exact ⟨rfl, rfl, rfl, rfl⟩

theorem same_frames_push_local (st : EngineStackM) (v : ℚ) :
    same_frames (st.push_local v) st :=
  ⟨rfl, rfl, rfl, rfl⟩

theorem same_frames_copy_stack (b : Bool) (src : Domain) :
    ∀ (size : ℕ) (offset : ℤ) (st : EngineStackM),
      same_frames (copy_stack b src size offset st) st := by
  intro size
  induction size with
  | zero => intro off st; exact same_frames_refl st
  | succ n ih =>
      intro off st
      rw [copy_stack]
      exact same_frames_trans (ih _ _) (same_frames_push_domain _ _ _)

theorem fpop_fields {fs fs2 : FrameStackM} {n : ℕ}
    (h : fs.pop n = some fs2) :
    fs2.frame_start = fs.frame_start ∧ fs2.frames = fs.frames ∧
      fs2.stack = fs.stack.take (fs.stack.length - n) := by
  rw [FrameStackM.pop] at h
  split at h
  · injection h with h
    subst h
    exact ⟨rfl, rfl, rfl⟩
  · exact absurd h (by simp)

theorem fpush_frame_fields {fs fs2 : FrameStackM} {args params : ℕ}
    (h : fs.push_frame args params = some fs2) :
    fs2.frame_start = fs.stack.length - args ∧
      fs2.frames = fs.frame_start :: fs.frames := by
  rw [FrameStackM.push_frame] at h
  split at h
  · injection h with h
    subst h
    exact ⟨rfl, rfl⟩
  · exact absurd h (by simp)

theorem fpop_frame_fields {fs fs2 : FrameStackM}
    (h : fs.pop_frame = some fs2) :
    ∃ f rest, fs.frames = f :: rest ∧ fs2.frame_start = f ∧
      fs2.frames = rest ∧ fs2.stack = fs.stack.take fs.frame_start := by
  rw [FrameStackM.pop_frame] at h
  split at h
  · exact absurd h (by simp)
  · rename_i f rest heq
    split at h
    · injection h with h
      subst h
      exact ⟨f, rest, heq, rfl, rfl, rfl⟩
    · exact absurd h (by simp)

theorem pop_fields_engine {st st2 : EngineStackM} {n : StackSize}
    (h : st.pop n = some st2) :
    same_frames st2 st ∧
      st2.locals.stack = st.locals.stack.take (st.locals.stack.length - n.locals) ∧
      st2.captures.stack =
        st.captures.stack.take (st.captures.stack.length - n.captures) := by
  rw [EngineStackM.pop] at h
  split at h
  · rename_i l c heql heqc
    injection h with h
    subst h
    obtain ⟨a1, a2, a3⟩ := fpop_fields heql
    obtain ⟨b1, b2, b3⟩ := fpop_fields heqc
    exact ⟨⟨a1, a2, b1, b2⟩, a3, b3⟩
  · exact absurd h (by simp)

theorem same_frames_pop {st st2 : EngineStackM} {n : StackSize}
    (h : st.pop n = some st2) : same_frames st2 st :=
  (pop_fields_engine h).1

theorem same_frames_exec_start_fn_call {chunks : List Chunk} {b sr lc : Bool}
    {fn : ℕ} {st st2 : EngineStackM}
    (h : exec_start_fn_call chunks b sr lc fn st = some st2) :
    same_frames st2 st := by
  simp only [exec_start_fn_call] at h
  split at h
  · exact absurd h (by simp)
  · split at h <;> try split at h
    all_goals injection h with h
    all_goals subst h
    all_goals
      first
        | exact same_frames_refl st
        | exact same_frames_push_domain _ _ _
        | exact same_frames_trans (same_frames_push_domain _ _ _)
            (same_frames_push_domain _ _ _)

theorem push_frame_fields {st st1 : EngineStackM} {args params : StackSize}
    (h : st.push_frame args params = some st1) :
    st1.locals.frame_start = st.locals.stack.length - args.locals ∧
      st1.locals.frames = st.locals.frame_start :: st.locals.frames ∧
      st1.captures.frame_start = st.captures.stack.length - args.captures ∧
      st1.captures.frames = st.captures.frame_start :: st.captures.frames := by
  rw [EngineStackM.push_frame] at h
  split at h
  · rename_i l c heql heqc
    injection h with h
    subst h
    obtain ⟨a1, a2⟩ := fpush_frame_fields heql
    obtain ⟨b1, b2⟩ := fpush_frame_fields heqc
    exact ⟨a1, a2, b1, b2⟩
  · exact absurd h (by simp)

theorem pop_frame_fields {st st2 : EngineStackM}
    (h : st.pop_frame = some st2) :
    ∃ lf lrest cf crest,
      st.locals.frames = lf :: lrest ∧ st.captures.frames = cf :: crest ∧
        st2.locals.frame_start = lf ∧ st2.locals.frames = lrest ∧
        st2.locals.stack = st.locals.stack.take st.locals.frame_start ∧
        st2.captures.frame_start = cf ∧ st2.captures.frames = crest ∧
        st2.captures.stack = st.captures.stack.take st.captures.frame_start := by
  rw [EngineStackM.pop_frame] at h
  split at h
  · rename_i l c heql heqc
    injection h with h
    subst h
    obtain ⟨lf, lrest, a1, a2, a3, a4⟩ := fpop_frame_fields heql
    obtain ⟨cf, crest, b1, b2, b3, b4⟩ := fpop_frame_fields heqc
    exact ⟨lf, lrest, cf, crest, a1, b1, a2, a3, a4, b2, b3, b4⟩
  · exact absurd h (by simp)

/-- Executing any piece of work, when it succeeds, leaves the current
frame start and the saved-frame list of both stacks exactly as they were:
every frame pushed inside has been popped. -/
theorem run_preserves_frames (chunks : List Chunk) :
    ∀ (fuel : ℕ) (t : Task) (st st2 : EngineStackM),
      run chunks fuel t st = some st2 → same_frames st2 st := by
  intro fuel
  induction fuel with
  | zero => intro t st st2 h; simp [run] at h
  | succ fuel ih =>
      intro t st st2 h
      cases t with
      | enter l =>
          rw [run] at h
          split at h
          · exact absurd h (by simp)
          · exact ih _ _ _ h
      | stmts l =>
          cases l with
          | nil =>
              rw [run] at h
              injection h with h
              subst h
              exact same_frames_refl st
          | cons s rest =>
              rw [run] at h
              split at h
              · exact absurd h (by simp)
              · rename_i st1 heq1
                exact same_frames_trans (ih _ _ _ h) (ih _ _ _ heq1)
      | stmt s =>
          cases s with
          | push_value dest e =>
              rw [run] at h
              injection h with h
              subst h
              exact same_frames_push_domain _ _ _
          | push_constant dest c =>
              rw [run] at h
              injection h with h
              subst h
              exact same_frames_push_domain _ _ _
          | push_copy dest src offset size =>
              rw [run] at h
              injection h with h
              subst h
              exact same_frames_copy_stack _ _ _ _ _
          | push_lambda dest fn self_rec =>
              rw [run] at h
              exact same_frames_exec_start_fn_call h
          | start_fn_call fn self_rec =>
              rw [run] at h
              exact same_frames_exec_start_fn_call h
          | call_fn fn args =>
              rw [run] at h
              exact ih _ _ _ h
          | start_lambda_call src offset =>
              rw [run] at h
              injection h with h
              subst h
              exact same_frames_push_local _ _
          | call_lambda_fn src offset args =>
              rw [run] at h
              split at h
              · exact absurd h (by simp)
              · exact ih _ _ _ h
          | if_stmt cond if_body else_body =>
              rw [run] at h
              split at h
              · exact ih _ _ _ h
              · split at h
                · exact ih _ _ _ h
                · injection h with h
                  subst h
                  exact same_frames_refl st
          | for_count start blk named =>
              rw [run] at h
              exact ih _ _ _ h
          | for_default start stop blk named =>
              rw [run] at h
              split at h
              · exact absurd h (by simp)
              · exact ih _ _ _ h
          | for_full start step stop blk named =>
              rw [run] at h
              split at h
              · exact absurd h (by simp)
              · exact ih _ _ _ h
          | breakpoint =>
              rw [run] at h
              injection h with h
              subst h
              exact same_frames_refl st
      | call_fn fn args =>
          rw [run] at h
          split at h
          · exact absurd h (by simp)
          · rename_i c heqc
            split at h
            · split at h
              · exact absurd h (by simp)
              · rename_i st1 hpf
                split at h
                · exact absurd h (by simp)
                · rename_i st2x hrun
                  split at h
                  · exact absurd h (by simp)
                  · rename_i st3 hpopf
                    have hf1 := push_frame_fields hpf
                    have hf2 := ih _ _ _ hrun
                    obtain ⟨lf, lrest, cf, crest, hfr, hcfr, e1, e2, _, e4, e5, _⟩ :=
                      pop_frame_fields hpopf
                    rw [hf2.2.1, hf1.2.1] at hfr
                    rw [hf2.2.2.2, hf1.2.2.2] at hcfr
                    injection hfr with hfr1 hfr2
                    injection hcfr with hcfr1 hcfr2
                    have hmid : same_frames st3 st := by
                      refine ⟨?_, ?_, ?_, ?_⟩
                      · rw [e1, ← hfr1]
                      · rw [e2, ← hfr2]
                      · rw [e4, ← hcfr1]
                      · rw [e5, ← hcfr2]
                    exact same_frames_trans (same_frames_pop h) hmid
            · exact absurd h (by simp)
      | call_lambda fn args =>
          rw [run] at h
          split at h
          · exact absurd h (by simp)
          · rename_i c heqc
            split at h
            · split at h
              · exact absurd h (by simp)
              · rename_i st1 hpf
                split at h
                · exact absurd h (by simp)
                · rename_i st2x hrun
                  split at h
                  · exact absurd h (by simp)
                  · rename_i st3 hpopf
                    have hf1 := push_frame_fields hpf
                    have hf2 := ih _ _ _ hrun
                    obtain ⟨lf, lrest, cf, crest, hfr, hcfr, e1, e2, _, e4, e5, _⟩ :=
                      pop_frame_fields hpopf
                    rw [hf2.2.1, hf1.2.1] at hfr
                    rw [hf2.2.2.2, hf1.2.2.2] at hcfr
                    injection hfr with hfr1 hfr2
                    injection hcfr with hcfr1 hcfr2
                    have hmid : same_frames st3 st := by
                      refine ⟨?_, ?_, ?_, ?_⟩
                      · rw [e1, ← hfr1]
                      · rw [e2, ← hfr2]
                      · rw [e4, ← hcfr1]
                      · rw [e5, ← hcfr2]
                    exact same_frames_trans (same_frames_pop h) hmid
            · exact absurd h (by simp)
      | local_block blk =>
          rw [run] at h
          split at h
          · exact absurd h (by simp)
          · rename_i c heqc
            split at h
            · split at h
              · exact absurd h (by simp)
              · rename_i st1 hrun
                exact same_frames_trans (same_frames_pop h) (ih _ _ _ hrun)
            · exact absurd h (by simp)
      | for_iter vals blk named =>
          cases vals with
          | nil =>
              rw [run] at h
              injection h with h
              subst h
              exact same_frames_refl st
          | cons v rest =>
              rw [run] at h
              split at h
              · exact absurd h (by simp)
              · rename_i st1 h1
                have hpush : same_frames (if named then st.push_local v else st) st := by
                  split
                  · exact same_frames_push_local _ _
                  · exact same_frames_refl st
                exact same_frames_trans (ih _ _ _ h)
                  (same_frames_trans (ih _ _ _ h1) hpush)

/-- C8: any execution of `execute_main` that completes without a fatal
error ends with both the Locals stack and the Captures stack empty. -/
theorem execute_main_empty_stacks (chunks : List Chunk) (idx fuel : ℕ)
    (st2 : EngineStackM) (h : execute_main chunks idx fuel = some st2) :
    st2.locals.stack.length = 0 ∧ st2.captures.stack.length = 0 := by
  rw [execute_main] at h
  cases fuel with
  | zero => simp [run] at h
  | succ fuel =>
      rw [run] at h
      split at h
      · exact absurd h (by simp)
      · rename_i c heqc
        split at h
        · split at h
          · exact absurd h (by simp)
          · rename_i st1 hpf
            split at h
            · exact absurd h (by simp)
            · rename_i st2x hrun
              split at h
              · exact absurd h (by simp)
              · rename_i st3 hpopf
                have hf1 := push_frame_fields hpf
                have hf2 := run_preserves_frames chunks fuel _ _ _ hrun
                obtain ⟨lf, lrest, cf, crest, hfr, hcfr, e1, e2, e3, e4, e5, e6⟩ :=
                  pop_frame_fields hpopf
                -- the main call starts from reset stacks, so the popped
                -- frame starts at position 0 on both stacks
                have hl0 : st2x.locals.frame_start = 0 := by
                  rw [hf2.1, hf1.1]; rfl
                have hc0 : st2x.captures.frame_start = 0 := by
                  rw [hf2.2.2.1, hf1.2.2.1]; rfl
                have h3l : st3.locals.stack = [] := by
                  rw [e3, hl0, List.take_zero]
                have h3c : st3.captures.stack = [] := by
                  rw [e6, hc0, List.take_zero]
                -- the final pop of the closure word and the argument
                -- captures pops from the already-empty stacks
                obtain ⟨_, p2, p3⟩ := pop_fields_engine h
                constructor
                · rw [p2, h3l]
                  simp
                · rw [p3, h3c]
                  simp
        · exact absurd h (by simp)

/-- C8 witness: a two-chunk program whose main chunk has an empty body
runs to completion and ends with both stacks empty. -/
theorem execute_main_empty_stacks_witness :
    execute_main
        [⟨ChunkType.local_block, 0, none, ⟨0, 0⟩, []⟩,
         ⟨ChunkType.function, 0, none, ⟨0, 0⟩, []⟩] 1 3 =
      some ⟨⟨[], 0, []⟩, ⟨[], 0, []⟩⟩ ∧
      (⟨⟨[], 0, []⟩, ⟨[], 0, []⟩⟩ : EngineStackM).locals.stack.length = 0 ∧
      (⟨⟨[], 0, []⟩, ⟨[], 0, []⟩⟩ : EngineStackM).captures.stack.length = 0 :=
  ⟨rfl,
   execute_main_empty_stacks
     [⟨ChunkType.local_block, 0, none, ⟨0, 0⟩, []⟩,
      ⟨ChunkType.function, 0, none, ⟨0, 0⟩, []⟩] 1 3
     ⟨⟨[], 0, []⟩, ⟨[], 0, []⟩⟩ rfl⟩

/-! ## Canonical truth values (claim C10) -/

/-- C10: the six comparison operators and prefix `!` only ever return
exactly 0 or exactly 1. -/
theorem comparisons_return_zero_or_one (l r : ℚ) :
    (binary_op BinOp.tkEquality l r = 0 ∨ binary_op BinOp.tkEquality l r = 1) ∧
      (binary_op BinOp.tkInequality l r = 0 ∨ binary_op BinOp.tkInequality l r = 1) ∧
      (binary_op BinOp.tkLt l r = 0 ∨ binary_op BinOp.tkLt l r = 1) ∧
      (binary_op BinOp.tkGt l r = 0 ∨ binary_op BinOp.tkGt l r = 1) ∧
      (binary_op BinOp.tkLe l r = 0 ∨ binary_op BinOp.tkLe l r = 1) ∧
      (binary_op BinOp.tkGe l r = 0 ∨ binary_op BinOp.tkGe l r = 1) ∧
      (prefix_op PrefixOp.tkBang r = 0 ∨ prefix_op PrefixOp.tkBang r = 1) := by
  refine ⟨?_, ?_, ?_, ?_, ?_, ?_, ?_⟩ <;>
    · simp only [binary_op, prefix_op]
      split_ifs <;> simp

end SvgPathTurtle
